import Mathlib

/-!
Shallow embedding of `code_analyzer.py` (a static style checker for Python
source files) and proofs about its rule engine.

Lines are modelled as lists of characters (`List Char`), a source text as a
`String`; the seven line-level detectors, the blank-line bookkeeping of
`get_issues_by_line`, the node-level detectors over a model of the `ast`
statement tree, and the `(line_nbr, code)` sort of `check_file` are all
translated directly from the Python source.  `ast.parse` is Python standard
library code, so the node pass takes the parse outcome (`Except ParseError`)
as its input; a raised `SyntaxError` is the `Except.error` case.
-/

/-- The sole data entity of the analyzer: `Issue(code, msg, line_nbr)`. -/
structure Issue where
  code : String
  msg : String
  line_nbr : Nat
deriving DecidableEq

/-- Characters treated as whitespace by the regex class `\s` and by
`str.strip()` (the ASCII whitespace set; the analyzer runs on source code). -/
def isPySpace (c : Char) : Bool :=
  c = ' ' || c = '\t' || c = '\n' || c = '\x0b' || c = '\x0c' || c = '\r'

/-- `text.split('\n')`: split a character list at every newline. -/
def splitNl : List Char → List (List Char)
  | [] => [[]]
  | c :: cs =>
    match splitNl cs with
    | [] => [[]]
    | l :: ls => if c = '\n' then [] :: l :: ls else (c :: l) :: ls

/-- `line.strip() == ""`: the line consists of whitespace only. -/
def isBlank (line : List Char) : Bool :=
  line.all isPySpace

/-- `p` is a prefix of the second list (character-by-character comparison). -/
def isPre : List Char → List Char → Bool
  | [], _ => true
  | _ :: _, [] => false
  | p :: ps, c :: cs => p = c && isPre ps cs

/-- `pat in s` for Python strings: `pat` occurs as a contiguous sublist. -/
def hasSub (pat : List Char) : List Char → Bool
  | [] => pat.isEmpty
  | c :: cs => isPre pat (c :: cs) || hasSub pat cs

/-- One pass of `re.sub(r"q.*?q", "", line)` for a quote character `q`,
as a state machine over the characters: `none` means we are outside a
quoted span, `some buf` means we are inside one opened by `q`, with `buf`
holding (reversed) the characters seen since, in case the span never closes
(then the regex finds no match there and the text stays). -/
def stripQ (q : Char) : List Char → Option (List Char) → List Char
  | [], none => []
  | [], some buf => q :: buf.reverse
  | c :: cs, none => if c = q then stripQ q cs (some []) else c :: stripQ q cs none
  | c :: cs, some buf => if c = q then stripQ q cs none else stripQ q cs (some (c :: buf))

/-- `if len(line) > 79: yield Issue("S001", "Too long", line_nbr)`. -/
def get_issue_001 (line : List Char) (line_nbr : Nat) : List Issue :=
  if 79 < line.length then [Issue.mk ("S001") ("Too long") line_nbr] else []

/-- `re.search(r"^\s+", line)` finds the maximal leading whitespace run
(none when the line has no leading whitespace); an issue is emitted when
its length is not a multiple of four. -/
def get_issue_002 (line : List Char) (line_nbr : Nat) : List Issue :=
  let nbr_spaces := (line.takeWhile isPySpace).length
  if nbr_spaces = 0 then []
  else if nbr_spaces % 4 = 0 then []
  else [Issue.mk ("S002") ("Indentation is not a multiple of four") line_nbr]

/-- Strip non-greedy single-quoted literals, then non-greedy double-quoted
literals, then the trailing comment (`re.sub(r'#.*$', "", line)` removes
everything from the first `#`); an issue is emitted if a `;` remains. -/
def get_issue_003 (line : List Char) (line_nbr : Nat) : List Issue :=
  let l1 := stripQ '\'' line none
  let l2 := stripQ '"' l1 none
  let l3 := l2.takeWhile (fun c => c ≠ '#')
  if l3.contains ';' then [Issue.mk ("S003") ("Unnecessary semicolon") line_nbr] else []

/-- `line.startswith("#")` exempts the line; otherwise `re.search(r"(\s*)#", line)`
matches at the first `#` of the line, capturing the maximal whitespace run
immediately before it (backtracking inside the run cannot produce `#`, so the
leftmost match anchors to the first `#`); fewer than two captured whitespace
characters emit the issue. -/
def get_issue_004 (line : List Char) (line_nbr : Nat) : List Issue :=
  if line.head? = some '#' then []
  else
    let before := line.takeWhile (fun c => c ≠ '#')
    if before.length = line.length then []
    else
      let nbr_spaces := (before.reverse.takeWhile isPySpace).length
      if nbr_spaces < 2 then
        [Issue.mk ("S004") ("Less than two spaces before inline comments") line_nbr]
      else []

/-- `re.search(r".*?(#.*$)", line)` succeeds exactly when the line contains a
`#`; the lazy `.*?` makes the overall match start at position 0 and `#.*$`
extends it to the end of the line, so `match[0]` is the whole line.  The code
then searches `match[0].lower()` — i.e. the whole lowercased line — for
`"todo"` (group 1, the part from the first `#`, is never used). -/
def get_issue_005 (line : List Char) (line_nbr : Nat) : List Issue :=
  if line.contains '#' then
    if hasSub ("todo".data) (line.map Char.toLower) then
      [Issue.mk ("S005") ("TODO found") line_nbr]
    else []
  else []

/-- `if nbr_lines > 2: yield Issue("S006", ..., line_nbr)`. -/
def get_issue_006 (nbr_lines : Nat) (line_nbr : Nat) : List Issue :=
  if 2 < nbr_lines then
    [Issue.mk ("S006") ("More than two blank lines preceding a code line") line_nbr]
  else []

/-- Whether at least two whitespace characters follow (the `\s{2,}` tail). -/
def kwSpaces : List Char → Bool
  | c1 :: c2 :: _ => isPySpace c1 && isPySpace c2
  | _ => false

/-- `re.search(r"(def|class)\s{2,}", line)`: leftmost occurrence of `def` or
`class` (alternation tries `def` first) followed by two or more whitespace
characters; returns the matched keyword. -/
def kw007 : List Char → Option String
  | [] => none
  | c :: cs =>
    if isPre ("def".data) (c :: cs) && kwSpaces ((c :: cs).drop 3) then some ("def")
    else if isPre ("class".data) (c :: cs) && kwSpaces ((c :: cs).drop 5) then some ("class")
    else kw007 cs

/-- `yield Issue("S007", f"Too many spaces after '{match[1]}'", line_nbr)`. -/
def get_issue_007 (line : List Char) (line_nbr : Nat) : List Issue :=
  match kw007 line with
  | some kw => [Issue.mk ("S007") ("Too many spaces after \x27" ++ kw ++ "\x27") line_nbr]
  | none => []

/-- All seven line detectors applied to one non-blank line, in source order. -/
def lineIssues (line : List Char) (line_nbr : Nat) (preceding_empty_lines : Nat) : List Issue :=
  get_issue_001 line line_nbr ++ get_issue_002 line line_nbr ++
  get_issue_003 line line_nbr ++ get_issue_004 line line_nbr ++
  get_issue_005 line line_nbr ++ get_issue_006 preceding_empty_lines line_nbr ++
  get_issue_007 line line_nbr

/-- The loop of `get_issues_by_line`: a blank line increments the
`preceding_empty_lines` counter and is skipped; a non-blank line runs the
seven detectors and resets the counter to 0. -/
def scanLines : List (List Char) → Nat → Nat → List Issue
  | [], _, _ => []
  | line :: rest, line_nbr, blanks =>
    if isBlank line then scanLines rest (line_nbr + 1) (blanks + 1)
    else lineIssues line line_nbr blanks ++ scanLines rest (line_nbr + 1) 0

/-- `get_issues_by_line(text)`: split on newlines, enumerate from 1. -/
def get_issues_by_line (text : String) : List Issue :=
  scanLines (splitNl text.data) 1 0

/-- `re.match(r"[a-z_].*", text)`: succeeds exactly when `text` is nonempty
and its first character is an ASCII lowercase letter or an underscore
(`.*` always matches the possibly empty remainder). -/
def is_snake_case (text : String) : Bool :=
  match text.data with
  | [] => false
  | c :: _ => (decide ('a' ≤ c) && decide (c ≤ 'z')) || decide (c = '_')

/-- A formal parameter: `ast.arg` (`arg.arg` is the name). -/
structure Arg where
  arg : String
  lineno : Nat
deriving DecidableEq

/-- A default-value expression, as far as `get_issue_012` inspects it:
a literal list / dict / set, or anything else. -/
inductive PyExpr where
  | listLit (lineno : Nat)
  | dictLit (lineno : Nat)
  | setLit (lineno : Nat)
  | otherExpr (lineno : Nat)
deriving DecidableEq

/-- `ast.arguments`: `defaults` are the trailing defaults of the positional
parameters (`posonlyargs ++ args`); `kw_defaults` belong to `kwonlyargs`. -/
structure Arguments where
  posonlyargs : List Arg
  args : List Arg
  kwonlyargs : List Arg
  defaults : List PyExpr
  kw_defaults : List (Option PyExpr)
deriving DecidableEq

/-- An assignment target: `ast.Name` carries an `id` attribute
(`hasattr(target, "id")`); every other target kind does not. -/
inductive Target where
  | name (id : String)
  | other
deriving DecidableEq

/-- The statement tree, as far as the node pass inspects it.  `compound`
stands for any other statement carrying nested statement lists (`if`, `for`,
`while`, `with`, `try`, ...); `simple` for leaf statements. -/
inductive Stmt where
  | classDef (name : String) (lineno : Nat) (body : List Stmt)
  | functionDef (name : String) (lineno : Nat) (args : Arguments) (body : List Stmt)
  | asyncFunctionDef (name : String) (lineno : Nat) (args : Arguments) (body : List Stmt)
  | assign (targets : List Target) (lineno : Nat)
  | compound (body : List Stmt)
  | simple

/-- `re.match(r"[A-Z].*", name)` fails → S008. -/
def get_issue_008 (name : String) (lineno : Nat) : List Issue :=
  let ok : Bool :=
    match name.data with
    | [] => false
    | c :: _ => decide ('A' ≤ c) && decide (c ≤ 'Z')
  if ok then []
  else [Issue.mk ("S008") ("Class name \x27" ++ name ++ "\x27 should use CamelCase") lineno]

/-- `if not is_snake_case(name): yield Issue("S009", ..., node.lineno)`. -/
def get_issue_009 (name : String) (lineno : Nat) : List Issue :=
  if is_snake_case name then []
  else [Issue.mk ("S009") ("Function name \x27" ++ name ++ "\x27 should use snake_case") lineno]

/-- `for arg in node.args.args`: each positional parameter failing the
snake-case predicate yields an issue at the parameter's line. -/
def get_issue_010 (args : Arguments) : List Issue :=
  args.args.flatMap (fun a =>
    if is_snake_case a.arg then []
    else [Issue.mk ("S010") ("Argument name \x27" ++ a.arg ++ "\x27 should be snake case") a.lineno])

/-- Issues for one assignment target (only `Name` targets have an `id`). -/
def targetIssues (lineno : Nat) : Target → List Issue
  | .name id =>
    if is_snake_case id then []
    else [Issue.mk ("S011") ("Variable \x27" ++ id ++ "\x27 should be snake case") lineno]
  | .other => []

/-- `for arg in node.body`: each direct `Assign` statement contributes one
issue per badly named `Name` target, at the assignment's line. -/
def get_issue_011 (body : List Stmt) : List Issue :=
  body.flatMap (fun s =>
    match s with
    | .assign targets lineno => targets.flatMap (targetIssues lineno)
    | _ => [])

/-- `default.lineno`. -/
def PyExpr.lineno : PyExpr → Nat
  | .listLit l => l
  | .dictLit l => l
  | .setLit l => l
  | .otherExpr l => l

/-- `isinstance(default, (ast.List, ast.Dict, ast.Set))`. -/
def isMutableLit : PyExpr → Bool
  | .listLit _ => true
  | .dictLit _ => true
  | .setLit _ => true
  | .otherExpr _ => false

/-- `for default in node.args.defaults`: each literal list/dict/set default
yields an issue at the default's line. -/
def get_issue_012 (args : Arguments) : List Issue :=
  args.defaults.flatMap (fun d =>
    if isMutableLit d then [Issue.mk ("S012") ("Default argument value is mutable") d.lineno]
    else [])

mutual
/-- `ast.walk`: every node of the tree (the traversal order is irrelevant
to the analyzer, whose output is re-sorted). -/
def walkStmt : Stmt → List Stmt
  | .classDef n l b => .classDef n l b :: walkStmts b
  | .functionDef n l a b => .functionDef n l a b :: walkStmts b
  | .asyncFunctionDef n l a b => .asyncFunctionDef n l a b :: walkStmts b
  | .assign t l => [.assign t l]
  | .compound b => .compound b :: walkStmts b
  | .simple => [.simple]

def walkStmts : List Stmt → List Stmt
  | [] => []
  | s :: ss => walkStmt s ++ walkStmts ss
end

/-- The dispatch of `get_issues_by_node`: `isinstance(node, ast.ClassDef)`
runs S008; `isinstance(node, ast.FunctionDef)` runs S009–S012.  In the `ast`
module `AsyncFunctionDef` is not a subclass of `FunctionDef`, so an async
function definition matches neither test. -/
def nodeIssues : Stmt → List Issue
  | .classDef name lineno _ => get_issue_008 name lineno
  | .functionDef name lineno args body =>
      get_issue_009 name lineno ++ get_issue_010 args ++
      get_issue_011 body ++ get_issue_012 args
  | _ => []

/-- A raised `SyntaxError` from `ast.parse`. -/
structure ParseError where
  msg : String
deriving DecidableEq

/-- The body of `get_issues_by_node` after a successful parse: walk every
node and dispatch. -/
def get_issues_by_node_ok (m : List Stmt) : List Issue :=
  (walkStmts m).flatMap nodeIssues

/-- `get_issues_by_node(text)`: `ast.parse` is standard-library code, so the
pass is modelled on the parse outcome; a parse failure (raised
`SyntaxError`) propagates to the caller unchanged. -/
def get_issues_by_node (p : Except ParseError (List Stmt)) : Except ParseError (List Issue) :=
  match p with
  | .error e => .error e
  | .ok m => .ok (get_issues_by_node_ok m)

/-- Python `<=` on strings: lexicographic comparison by code point. -/
def charListLE : List Char → List Char → Bool
  | [], _ => true
  | _ :: _, [] => false
  | a :: as, b :: bs => if a = b then charListLE as bs else decide (a < b)

/-- The sort key of `check_file`: `(i.line_nbr, i.code)` compared as a
Python tuple — line number first, rule code lexicographically as tiebreak. -/
def issueLE (a b : Issue) : Bool :=
  decide (a.line_nbr < b.line_nbr) ||
    (a.line_nbr == b.line_nbr && charListLE a.code.data b.code.data)

@[reducible] def issueRel (a b : Issue) : Prop := issueLE a b = true

/-- `check_file` without the I/O glue: concatenate the two passes' issues and
sort by `(line_nbr, code)` (`sorted` is embedded as an insertion sort over
the same key; the claims proved here do not depend on how ties are broken).
A parse failure aborts before anything is reported. -/
def check_file_issues (text : String) (p : Except ParseError (List Stmt)) :
    Except ParseError (List Issue) :=
  match get_issues_by_node p with
  | .error e => .error e
  | .ok node_issues => .ok (List.insertionSort issueRel (get_issues_by_line text ++ node_issues))

/-- The blank-line counter value with which `get_issues_by_line` reaches line
index `i`, starting from counter value `b`. -/
def ctr : List (List Char) → Nat → Nat → Nat
  | _, b, 0 => b
  | [], b, _ + 1 => b
  | l :: ls, b, i + 1 => ctr ls (if isBlank l then b + 1 else 0) i

/-- The number of consecutive blank lines immediately preceding line index
`i`: the length of the maximal all-blank suffix of the first `i` lines. -/
def precedingBlanks (ls : List (List Char)) (i : Nat) : Nat :=
  ((ls.take i).reverse.takeWhile isBlank).length

/-- Node kinds dispatched to a node-level detector by `get_issues_by_node`. -/
def dispatched : Stmt → Bool
  | .classDef .. => true
  | .functionDef .. => true
  | _ => false

/-! ### Helper lemmas about the line detectors -/

theorem get_issue_001_shape (l : List Char) (n : Nat) :
    get_issue_001 l n = [] ∨ get_issue_001 l n = [Issue.mk ("S001") ("Too long") n] := by
  unfold get_issue_001
  split <;> simp

theorem get_issue_002_shape (l : List Char) (n : Nat) :
    get_issue_002 l n = [] ∨
      get_issue_002 l n = [Issue.mk ("S002") ("Indentation is not a multiple of four") n] := by
  simp only [get_issue_002]
  split
  · simp
  · split <;> simp

theorem get_issue_003_shape (l : List Char) (n : Nat) :
    get_issue_003 l n = [] ∨ get_issue_003 l n = [Issue.mk ("S003") ("Unnecessary semicolon") n] := by
  simp only [get_issue_003]
  split <;> simp

theorem get_issue_004_shape (l : List Char) (n : Nat) :
    get_issue_004 l n = [] ∨
      get_issue_004 l n = [Issue.mk ("S004") ("Less than two spaces before inline comments") n] := by
  simp only [get_issue_004]
  split
  · simp
  · split
    · simp
    · split <;> simp

theorem get_issue_005_shape (l : List Char) (n : Nat) :
    get_issue_005 l n = [] ∨ get_issue_005 l n = [Issue.mk ("S005") ("TODO found") n] := by
  unfold get_issue_005
  split
  · split <;> simp
  · simp

theorem get_issue_007_shape (l : List Char) (n : Nat) :
    get_issue_007 l n = [] ∨
      ∃ kw, get_issue_007 l n = [Issue.mk ("S007") ("Too many spaces after \x27" ++ kw ++ "\x27") n] := by
  unfold get_issue_007
  cases hk : kw007 l with
  | none => simp
  | some kw => exact Or.inr ⟨kw, rfl⟩

theorem mem_lineIssues_line_nbr {l : List Char} {n b : Nat} {iss : Issue}
    (h : iss ∈ lineIssues l n b) : iss.line_nbr = n := by
  unfold lineIssues at h
  simp only [List.mem_append] at h
  rcases h with ((((((h | h) | h) | h) | h) | h) | h)
  · rcases get_issue_001_shape l n with hs | hs <;> rw [hs] at h <;> simp_all
  · rcases get_issue_002_shape l n with hs | hs <;> rw [hs] at h <;> simp_all
  · rcases get_issue_003_shape l n with hs | hs <;> rw [hs] at h <;> simp_all
  · rcases get_issue_004_shape l n with hs | hs <;> rw [hs] at h <;> simp_all
  · rcases get_issue_005_shape l n with hs | hs <;> rw [hs] at h <;> simp_all
  · unfold get_issue_006 at h
    split at h <;> simp_all
  · rcases get_issue_007_shape l n with hs | ⟨kw, hs⟩ <;> rw [hs] at h <;> simp_all

theorem mem_lineIssues_code {l : List Char} {n b : Nat} {iss : Issue}
    (h : iss ∈ lineIssues l n b) :
    iss.code = "S001" ∨ iss.code = "S002" ∨ iss.code = "S003" ∨ iss.code = "S004" ∨
      iss.code = "S005" ∨ iss.code = "S006" ∨ iss.code = "S007" := by
  unfold lineIssues at h
  simp only [List.mem_append] at h
  rcases h with ((((((h | h) | h) | h) | h) | h) | h)
  · rcases get_issue_001_shape l n with hs | hs <;> rw [hs] at h <;> simp_all
  · rcases get_issue_002_shape l n with hs | hs <;> rw [hs] at h <;> simp_all
  · rcases get_issue_003_shape l n with hs | hs <;> rw [hs] at h <;> simp_all
  · rcases get_issue_004_shape l n with hs | hs <;> rw [hs] at h <;> simp_all
  · rcases get_issue_005_shape l n with hs | hs <;> rw [hs] at h <;> simp_all
  · unfold get_issue_006 at h
    split at h <;> simp_all
  · rcases get_issue_007_shape l n with hs | ⟨kw, hs⟩ <;> rw [hs] at h <;> simp_all

theorem count_s006_lineIssues (l : List Char) (n b m : Nat) :
    (lineIssues l n b).count
        (Issue.mk ("S006") ("More than two blank lines preceding a code line") m) =
      if m = n ∧ 2 < b then 1 else 0 := by
  have hz : ∀ ll : List Issue,
      (∀ j ∈ ll, j.code ≠ "S006") →
      ll.count (Issue.mk ("S006") ("More than two blank lines preceding a code line") m) = 0 := by
    intro ll hll
    refine List.count_eq_zero.mpr (fun hm => ?_)
    exact hll _ hm rfl
  unfold lineIssues
  simp only [List.count_append]
  have h1 : (get_issue_001 l n).count
      (Issue.mk ("S006") ("More than two blank lines preceding a code line") m) = 0 := by
    refine hz _ (fun j hj => ?_)
    rcases get_issue_001_shape l n with hs | hs <;> rw [hs] at hj <;> simp_all
  have h2 : (get_issue_002 l n).count
      (Issue.mk ("S006") ("More than two blank lines preceding a code line") m) = 0 := by
    refine hz _ (fun j hj => ?_)
    rcases get_issue_002_shape l n with hs | hs <;> rw [hs] at hj <;> simp_all
  have h3 : (get_issue_003 l n).count
      (Issue.mk ("S006") ("More than two blank lines preceding a code line") m) = 0 := by
    refine hz _ (fun j hj => ?_)
    rcases get_issue_003_shape l n with hs | hs <;> rw [hs] at hj <;> simp_all
  have h4 : (get_issue_004 l n).count
      (Issue.mk ("S006") ("More than two blank lines preceding a code line") m) = 0 := by
    refine hz _ (fun j hj => ?_)
    rcases get_issue_004_shape l n with hs | hs <;> rw [hs] at hj <;> simp_all
  have h5 : (get_issue_005 l n).count
      (Issue.mk ("S006") ("More than two blank lines preceding a code line") m) = 0 := by
    refine hz _ (fun j hj => ?_)
    rcases get_issue_005_shape l n with hs | hs <;> rw [hs] at hj <;> simp_all
  have h7 : (get_issue_007 l n).count
      (Issue.mk ("S006") ("More than two blank lines preceding a code line") m) = 0 := by
    refine hz _ (fun j hj => ?_)
    rcases get_issue_007_shape l n with hs | ⟨kw, hs⟩ <;> rw [hs] at hj <;> simp_all
  rw [h1, h2, h3, h4, h5, h7]
  unfold get_issue_006
  by_cases hb : 2 < b
  · by_cases hm : m = n
    · subst hm
      simp [hb, List.count_cons]
    · simp only [hb, if_true, List.count_cons, List.count_nil, hm]
      have hne : (Issue.mk ("S006") ("More than two blank lines preceding a code line") n ==
          Issue.mk ("S006") ("More than two blank lines preceding a code line") m) = false := by
        simp only [beq_eq_false_iff_ne, ne_eq, Issue.mk.injEq]
        intro hc
        exact hm hc.2.2.symm
      simp [hne, hm]
  · simp [hb]

theorem mem_scanLines_bounds :
    ∀ (ls : List (List Char)) (n b : Nat) (iss : Issue), iss ∈ scanLines ls n b →
      n ≤ iss.line_nbr ∧ iss.line_nbr < n + ls.length := by
  intro ls
  induction ls with
  | nil => intro n b iss h; simp [scanLines] at h
  | cons l rest ih =>
    intro n b iss h
    unfold scanLines at h
    split at h
    · have := ih (n + 1) (b + 1) iss h
      simp only [List.length_cons]
      omega
    · rcases List.mem_append.mp h with h | h
      · have := mem_lineIssues_line_nbr h
        simp only [List.length_cons, this]
        omega
      · have := ih (n + 1) 0 iss h
        simp only [List.length_cons]
        omega

theorem count_scanLines_lt_eq_zero (ls : List (List Char)) (n b : Nat) (iss : Issue)
    (h : iss.line_nbr < n) : (scanLines ls n b).count iss = 0 := by
  refine List.count_eq_zero.mpr (fun hm => ?_)
  have := (mem_scanLines_bounds ls n b iss hm).1
  omega

theorem scanLines_count_s006 :
    ∀ (ls : List (List Char)) (n b i : Nat), i < ls.length →
      isBlank (ls.getD i []) = false →
      (scanLines ls n b).count
          (Issue.mk ("S006") ("More than two blank lines preceding a code line") (n + i)) =
        if 2 < ctr ls b i then 1 else 0 := by
  intro ls
  induction ls with
  | nil => intro n b i hi; simp at hi
  | cons l rest ih =>
    intro n b i hi hnb
    unfold scanLines
    cases i with
    | zero =>
      simp only [List.getD_cons_zero] at hnb
      rw [if_neg (by simp [hnb])]
      rw [List.count_append]
      rw [count_s006_lineIssues]
      rw [count_scanLines_lt_eq_zero rest (n + 1) 0 _ (by simp)]
      have hc : ctr (l :: rest) b 0 = b := rfl
      rw [hc]
      simp
    | succ j =>
      simp only [List.getD_cons_succ] at hnb
      simp only [List.length_cons, Nat.add_lt_add_iff_right] at hi
      have hc : ctr (l :: rest) b (j + 1) = ctr rest (if isBlank l then b + 1 else 0) j := rfl
      split
      · rename_i hbl
        have := ih (n + 1) (b + 1) j hi hnb
        rw [show n + (j + 1) = (n + 1) + j by omega] at *
        rw [this, hc, if_pos hbl]
      · rename_i hbl
        rw [List.count_append]
        rw [count_s006_lineIssues]
        rw [if_neg (by omega)]
        have := ih (n + 1) 0 j hi hnb
        rw [show n + (j + 1) = (n + 1) + j by omega]
        rw [this, hc, if_neg hbl]
        simp

theorem takeWhile_eq_of_all {α : Type} {p : α → Bool} {l : List α} (h : l.all p = true) :
    l.takeWhile p = l :=
  List.takeWhile_eq_self_iff.mpr (List.all_eq_true.mp h)

theorem takeWhile_length_ne_of_not_all {α : Type} {p : α → Bool} {l : List α}
    (h : l.all p = false) : ¬ (l.takeWhile p).length = l.length := by
  intro hlen
  have heq : l.takeWhile p = l := (List.takeWhile_prefix p).eq_of_length hlen
  have := List.takeWhile_eq_self_iff.mp heq
  rw [List.all_eq_true.mpr this] at h
  simp at h

theorem precedingBlanks_cons (l : List Char) (rest : List (List Char)) (j : Nat)
    (hj : j ≤ rest.length) :
    precedingBlanks (l :: rest) (j + 1) =
      if (rest.take j).all isBlank then (if isBlank l then j + 1 else j)
      else precedingBlanks rest j := by
  unfold precedingBlanks
  simp only [List.take_succ_cons, List.reverse_cons]
  rw [List.takeWhile_append]
  by_cases ha : (rest.take j).all isBlank = true
  · rw [if_pos (by rw [takeWhile_eq_of_all (by rwa [List.all_reverse])])]
    rw [if_pos ha, List.length_append, List.takeWhile_cons]
    by_cases hbl : isBlank l = true <;>
      simp [hbl, List.length_reverse, List.length_take, List.takeWhile_nil] <;> omega
  · have hrev : (rest.take j).reverse.all isBlank = false := by
      rw [List.all_reverse]
      exact Bool.eq_false_iff.mpr ha
    rw [if_neg (takeWhile_length_ne_of_not_all hrev)]
    rw [if_neg ha]

theorem ctr_eq :
    ∀ (ls : List (List Char)) (b i : Nat), i ≤ ls.length →
      ctr ls b i = if (ls.take i).all isBlank then b + i else precedingBlanks ls i := by
  intro ls
  induction ls with
  | nil =>
    intro b i hi
    have : i = 0 := by simpa using hi
    subst this
    simp [ctr]
  | cons l rest ih =>
    intro b i hi
    cases i with
    | zero => simp [ctr]
    | succ j =>
      have hj : j ≤ rest.length := by simpa using hi
      have hc : ctr (l :: rest) b (j + 1) = ctr rest (if isBlank l then b + 1 else 0) j := rfl
      rw [hc, precedingBlanks_cons l rest j hj]
      simp only [List.take_succ_cons, List.all_cons]
      by_cases hbl : isBlank l = true <;> by_cases ha : (rest.take j).all isBlank = true <;>
        simp [hbl, ha, ih (b + 1) j hj, ih 0 j hj] <;> omega

theorem ctr_zero_eq_precedingBlanks (ls : List (List Char)) (i : Nat) (hi : i ≤ ls.length) :
    ctr ls 0 i = precedingBlanks ls i := by
  rw [ctr_eq ls 0 i hi]
  by_cases ha : (ls.take i).all isBlank = true
  · rw [if_pos ha]
    unfold precedingBlanks
    rw [takeWhile_eq_of_all (by rwa [List.all_reverse])]
    rw [List.length_reverse, List.length_take]
    omega
  · rw [if_neg ha]

/-! ### The sort key is a total preorder -/

theorem charListLE_trans :
    ∀ xs ys zs : List Char, charListLE xs ys = true → charListLE ys zs = true →
      charListLE xs zs = true := by
  intro xs
  induction xs with
  | nil => intro ys zs h1 h2; rfl
  | cons a as ih =>
    intro ys zs h1 h2
    cases ys with
    | nil => simp [charListLE] at h1
    | cons b bs =>
      cases zs with
      | nil => simp [charListLE] at h2
      | cons c cs =>
        simp only [charListLE] at h1 h2 ⊢
        by_cases hab : a = b
        · subst hab
          by_cases hbc : a = c
          · subst hbc
            simp only [if_pos rfl] at h1 h2 ⊢
            exact ih bs cs h1 h2
          · rw [if_pos rfl] at h1
            rw [if_neg hbc] at h2 ⊢
            exact h2
        · rw [if_neg hab] at h1
          have hab' : a < b := of_decide_eq_true h1
          by_cases hbc : b = c
          · subst hbc
            rw [if_neg hab]
            exact h1
          · rw [if_neg hbc] at h2
            have hbc' : b < c := of_decide_eq_true h2
            have hac : a < c := lt_trans hab' hbc'
            rw [if_neg (ne_of_lt hac)]
            exact decide_eq_true hac
  
theorem charListLE_total :
    ∀ xs ys : List Char, charListLE xs ys = true ∨ charListLE ys xs = true := by
  intro xs
  induction xs with
  | nil => intro ys; exact Or.inl rfl
  | cons a as ih =>
    intro ys
    cases ys with
    | nil => exact Or.inr rfl
    | cons b bs =>
      simp only [charListLE]
      by_cases hab : a = b
      · subst hab
        simp only [if_pos rfl]
        exact ih bs
      · rcases lt_or_gt_of_ne hab with h | h
        · exact Or.inl (by rw [if_neg hab]; exact decide_eq_true h)
        · refine Or.inr ?_
          rw [if_neg (fun hba => hab hba.symm)]
          exact decide_eq_true h

theorem issueLE_trans (a b c : Issue) (h1 : issueLE a b = true) (h2 : issueLE b c = true) :
    issueLE a c = true := by
  simp only [issueLE, Bool.or_eq_true, Bool.and_eq_true, decide_eq_true_eq, beq_iff_eq]
    at h1 h2 ⊢
  rcases h1 with h1 | ⟨h1e, h1s⟩ <;> rcases h2 with h2 | ⟨h2e, h2s⟩
  · exact Or.inl (by omega)
  · exact Or.inl (by omega)
  · exact Or.inl (by omega)
  · exact Or.inr ⟨by omega, charListLE_trans _ _ _ h1s h2s⟩

theorem issueLE_total (a b : Issue) : issueRel a b ∨ issueRel b a := by
  unfold issueRel
  simp only [issueLE, Bool.or_eq_true, Bool.and_eq_true, decide_eq_true_eq, beq_iff_eq]
  rcases Nat.lt_trichotomy a.line_nbr b.line_nbr with h | h | h
  · exact Or.inl (Or.inl h)
  · rcases charListLE_total a.code.data b.code.data with hc | hc
    · exact Or.inl (Or.inr ⟨h, hc⟩)
    · exact Or.inr (Or.inr ⟨h.symm, hc⟩)
  · exact Or.inr (Or.inl h)

instance : IsTrans Issue issueRel := ⟨fun a b c => issueLE_trans a b c⟩

instance : IsTotal Issue issueRel := ⟨issueLE_total⟩

/-! ### Provenance of S004 issues -/

theorem mem_get_issue_004_head {l : List Char} {n : Nat} {iss : Issue}
    (h : iss ∈ get_issue_004 l n) : ¬ l.head? = some '#' := by
  simp only [get_issue_004] at h
  split at h
  · simp at h
  · assumption

theorem mem_lineIssues_s004 {l : List Char} {n b : Nat} {iss : Issue}
    (h : iss ∈ lineIssues l n b) (hc : iss.code = "S004") : iss ∈ get_issue_004 l n := by
  unfold lineIssues at h
  simp only [List.mem_append] at h
  rcases h with ((((((h | h) | h) | h) | h) | h) | h)
  · rcases get_issue_001_shape l n with hs | hs <;> rw [hs] at h <;> simp_all
  · rcases get_issue_002_shape l n with hs | hs <;> rw [hs] at h <;> simp_all
  · rcases get_issue_003_shape l n with hs | hs <;> rw [hs] at h <;> simp_all
  · exact h
  · rcases get_issue_005_shape l n with hs | hs <;> rw [hs] at h <;> simp_all
  · unfold get_issue_006 at h
    split at h <;> simp_all
  · rcases get_issue_007_shape l n with hs | ⟨kw, hs⟩ <;> rw [hs] at h <;> simp_all

theorem s004_mem_scan :
    ∀ (ls : List (List Char)) (n b : Nat) (iss : Issue), iss ∈ scanLines ls n b →
      iss.code = "S004" →
      ∃ i, i < ls.length ∧ iss.line_nbr = n + i ∧ ¬ (ls.getD i []).head? = some '#' := by
  intro ls
  induction ls with
  | nil => intro n b iss h; simp [scanLines] at h
  | cons l rest ih =>
    intro n b iss h hc
    unfold scanLines at h
    split at h
    · obtain ⟨i, hi, hline, hhead⟩ := ih (n + 1) (b + 1) iss h hc
      exact ⟨i + 1, by simpa using hi, by omega, by simpa using hhead⟩
    · rcases List.mem_append.mp h with h | h
      · have h4 := mem_lineIssues_s004 h hc
        refine ⟨0, by simp, ?_, ?_⟩
        · simpa using mem_lineIssues_line_nbr h
        · simpa using mem_get_issue_004_head h4
      · obtain ⟨i, hi, hline, hhead⟩ := ih (n + 1) 0 iss h hc
        exact ⟨i + 1, by simpa using hi, by omega, by simpa using hhead⟩

/-- If a predicate-false element contributes nothing, flat-mapping over the
filtered list gives the same result. -/
theorem flatMap_filter_eq {α β : Type} (p : α → Bool) (f : α → List β)
    (h : ∀ x, p x = false → f x = []) :
    ∀ l : List α, l.flatMap f = (l.filter p).flatMap f := by
  intro l
  induction l with
  | nil => rfl
  | cons a t ih =>
    cases hp : p a
    · simp [List.filter_cons, hp, h a hp, ih]
    · simp [List.filter_cons, hp, ih]

/-! ### Claim theorems -/

/-- C1 (code evidence for the divergence): on the line `todo = 1  # note` the
word `todo` occurs only before the first `#`, and the substring from the first
`#` to the end of the line (`# note`) does not contain `todo`
case-insensitively — yet `get_issue_005` emits S005 for it, both at detector
level and through the full line scanner, because the code searches `match[0]`
(the whole line) instead of the captured group from the first `#`. -/
theorem s005_fires_on_todo_before_hash :
    get_issue_005 ("todo = 1  # note".data) 1 = [Issue.mk ("S005") ("TODO found") 1] ∧
    (get_issues_by_line ("todo = 1  # note")).filter (fun iss => iss.code == "S005") =
      [Issue.mk ("S005") ("TODO found") 1] ∧
    ("todo = 1  # note".data).dropWhile (fun c => c ≠ '#') = "# note".data ∧
    hasSub ("todo".data) (("# note".data).map Char.toLower) = false := by
  decide

/-- C2 (counterexample): the line ` # c` is a full-line comment — its first
non-whitespace character is `#` (after one leading space) — yet the line
scanner emits an S004 issue for it, because `line.startswith("#")` only
exempts lines whose `#` is at position 0 and the single preceding space is
fewer than two. -/
theorem s004_on_indented_full_line_comment :
    ((" # c".data).dropWhile isPySpace).head? = some '#' ∧
    (get_issues_by_line (" # c")).filter (fun iss => iss.code == "S004") =
      [Issue.mk ("S004") ("Less than two spaces before inline comments") 1] := by
  decide

/-- C2 (amended): for every line whose first character is `#` (no leading
whitespace at all), the line scanner emits no CommentSpacing (S004) issue for
that line. -/
theorem no_s004_for_hash_started_line (text : String) (i : Nat)
    (hc : ((splitNl text.data).getD i []).head? = some '#') :
    (get_issues_by_line text).filter
        (fun iss => iss.code == "S004" && iss.line_nbr == i + 1) = [] := by
  rw [List.filter_eq_nil_iff]
  intro iss hm hp
  simp only [Bool.and_eq_true, beq_iff_eq] at hp
  obtain ⟨j, hj, hline, hhead⟩ := s004_mem_scan (splitNl text.data) 1 0 iss hm hp.1
  have hij : j = i := by omega
  subst hij
  exact hhead hc

/-- C2 witness: line 1 of the text `# x` starts with `#` and receives no
S004 issue. -/
theorem no_s004_for_hash_started_line_witness :
    (get_issues_by_line ("# x")).filter
        (fun iss => iss.code == "S004" && iss.line_nbr == 0 + 1) = [] :=
  no_s004_for_hash_started_line ("# x") 0 (by decide)

/-- C3: a parse failure propagates out of the node-level pass as the typed
`ParseError` it was raised with — never as a generic crash and never as a
silently returned empty issue list — and `check_file_issues` forwards it
unchanged to the external driver. -/
theorem parse_error_propagates :
    (∀ e : ParseError, get_issues_by_node (Except.error e) = Except.error e) ∧
    (∀ (e : ParseError) (issues : List Issue),
        get_issues_by_node (Except.error e) ≠ Except.ok issues) ∧
    (∀ (text : String) (e : ParseError),
        check_file_issues text (Except.error e) = Except.error e) :=
  ⟨fun _ => rfl, fun _ _ h => by simp [get_issues_by_node] at h, fun _ _ => rfl⟩

/-- C4: whenever `check_file_issues` reports an issue sequence, every adjacent
pair `(a, b)` satisfies `a.line_nbr < b.line_nbr`, or `a.line_nbr = b.line_nbr`
and `a.code` is lexicographically at most `b.code`. -/
theorem report_sorted_by_line_then_code (text : String) (p : Except ParseError (List Stmt))
    (issues : List Issue) (h : check_file_issues text p = Except.ok issues) :
    issues.Chain' (fun a b =>
      a.line_nbr < b.line_nbr ∨
        (a.line_nbr = b.line_nbr ∧ charListLE a.code.data b.code.data = true)) := by
  unfold check_file_issues at h
  cases hp : get_issues_by_node p with
  | error e => rw [hp] at h; exact absurd h (by simp)
  | ok ni =>
    rw [hp] at h
    simp only [Except.ok.injEq] at h
    subst h
    have hs := List.sorted_insertionSort issueRel (get_issues_by_line text ++ ni)
    refine (List.Pairwise.chain' hs).imp ?_
    intro a b hab
    simpa only [issueRel, issueLE, Bool.or_eq_true, Bool.and_eq_true, decide_eq_true_eq,
      beq_iff_eq] using hab

/-- C4 witness: a concrete report (two issue codes on line 5, one on line 1)
is chained by the `(line_nbr, code)` order. -/
theorem report_sorted_witness :
    List.Chain' (fun a b =>
      a.line_nbr < b.line_nbr ∨
        (a.line_nbr = b.line_nbr ∧ charListLE a.code.data b.code.data = true))
      [Issue.mk ("S003") ("Unnecessary semicolon") 1,
       Issue.mk ("S003") ("Unnecessary semicolon") 5,
       Issue.mk ("S006") ("More than two blank lines preceding a code line") 5] :=
  report_sorted_by_line_then_code ("x = 1; y = 2\n\n\n\nX  =  5;") (Except.ok []) _ (by rfl)

/-- C5: an UnnecessarySemicolon (S003) issue is emitted for a line exactly
when a `;` survives stripping single-quoted literals, then double-quoted
literals, then the trailing comment; in particular
`x = 1  # comment; with semicolon` yields no S003 and `x = 1; y = 2` yields
exactly one. -/
theorem s003_iff_semicolon_after_stripping :
    (∀ (line : List Char) (n : Nat),
        get_issue_003 line n =
          if ((stripQ '"' (stripQ '\'' line none) none).takeWhile
                (fun c => c ≠ '#')).contains ';'
          then [Issue.mk ("S003") ("Unnecessary semicolon") n] else []) ∧
    (get_issues_by_line ("x = 1  # comment; with semicolon")).filter
        (fun iss => iss.code == "S003") = [] ∧
    (get_issues_by_line ("x = 1; y = 2")).filter (fun iss => iss.code == "S003") =
      [Issue.mk ("S003") ("Unnecessary semicolon") 1] :=
  ⟨fun _ _ => rfl, by decide, by decide⟩

/-- C6: a non-blank line receives an ExcessBlankLines (S006) issue exactly
when more than two consecutive blank lines immediately precede it (the count
being the length of the maximal all-blank run of lines just before it, which
restarts after every non-blank line). -/
theorem s006_iff_blank_run_gt_two (text : String) (i : Nat)
    (hi : i < (splitNl text.data).length)
    (hnb : isBlank ((splitNl text.data).getD i []) = false) :
    (get_issues_by_line text).count
        (Issue.mk ("S006") ("More than two blank lines preceding a code line") (i + 1)) =
      if 2 < precedingBlanks (splitNl text.data) i then 1 else 0 := by
  have h := scanLines_count_s006 (splitNl text.data) 1 0 i hi hnb
  rw [ctr_zero_eq_precedingBlanks _ _ (Nat.le_of_lt hi)] at h
  rw [get_issues_by_line, show i + 1 = 1 + i by omega]
  exact h

/-- C6 witness: with exactly three preceding blank lines the code line gets
one S006; with exactly two it gets none. -/
theorem s006_iff_blank_run_gt_two_witness :
    ((get_issues_by_line ("x\n\n\n\ny")).count
        (Issue.mk ("S006") ("More than two blank lines preceding a code line") 5) =
      if 2 < precedingBlanks (splitNl ("x\n\n\n\ny".data)) 4 then 1 else 0) ∧
    ((get_issues_by_line ("x\n\n\ny")).count
        (Issue.mk ("S006") ("More than two blank lines preceding a code line") 4) =
      if 2 < precedingBlanks (splitNl ("x\n\n\ny".data)) 3 then 1 else 0) :=
  ⟨s006_iff_blank_run_gt_two ("x\n\n\n\ny") 4 (by decide) (by decide),
   s006_iff_blank_run_gt_two ("x\n\n\ny") 3 (by decide) (by decide)⟩

/-- C7: the snake-case predicate inspects only the first character — any name
beginning with an ASCII lowercase letter or an underscore passes, whatever the
remaining characters are — so such a function name never yields S009, and the
same predicate governs the argument (S010) and variable (S011) checks. -/
theorem naming_checks_first_character_only :
    (∀ (c : Char) (rest : List Char) (s : String), s.data = c :: rest →
        (('a' ≤ c ∧ c ≤ 'z') ∨ c = '_') → is_snake_case s = true) ∧
    (∀ (name : String) (lineno : Nat), is_snake_case name = true →
        get_issue_009 name lineno = []) ∧
    (∀ args : Arguments, args.args.all (fun a => is_snake_case a.arg) = true →
        get_issue_010 args = []) ∧
    (∀ body : List Stmt,
        body.all (fun s =>
          match s with
          | .assign ts _ => ts.all (fun t =>
              match t with
              | .name id => is_snake_case id
              | .other => true)
          | _ => true) = true →
        get_issue_011 body = []) := by
  refine ⟨?_, ?_, ?_, ?_⟩
  · intro c rest s hs hc
    unfold is_snake_case
    rw [hs]
    rcases hc with ⟨h1, h2⟩ | h
    · simp [decide_eq_true h1, decide_eq_true h2]
    · simp [h]
  · intro name lineno h
    simp [get_issue_009, h]
  · intro args h
    unfold get_issue_010
    refine List.flatMap_eq_nil_iff.mpr ?_
    intro a ha
    simp [List.all_eq_true.mp h a ha]
  · intro body h
    unfold get_issue_011
    refine List.flatMap_eq_nil_iff.mpr ?_
    intro s hs
    have hsall := List.all_eq_true.mp h s hs
    cases s with
    | assign ts ln =>
      have hts : ts.all (fun t =>
          match t with
          | Target.name id => is_snake_case id
          | Target.other => true) = true := hsall
      refine List.flatMap_eq_nil_iff.mpr ?_
      intro t ht
      cases t with
      | name id =>
        have hid : is_snake_case id = true := List.all_eq_true.mp hts _ ht
        simp [targetIssues, hid]
      | other => rfl
    | classDef n l b => rfl
    | functionDef n l a b => rfl
    | asyncFunctionDef n l a b => rfl
    | compound b => rfl
    | simple => rfl

/-- C7 witness: names with internal uppercase letters and digits but a good
first character pass all three naming detectors. -/
theorem naming_first_character_witness :
    is_snake_case ("my_Func9") = true ∧
    get_issue_009 ("my_Func9") 3 = [] ∧
    get_issue_010 (Arguments.mk [] [Arg.mk ("argOK") 3] [] [] []) = [] ∧
    get_issue_011 [Stmt.assign [Target.name ("vQ7"), Target.other] 4, Stmt.simple] = [] :=
  ⟨naming_checks_first_character_only.1 'm' ("y_Func9".data) ("my_Func9") (by decide) (by decide),
   naming_checks_first_character_only.2.1 ("my_Func9") 3 (by decide),
   naming_checks_first_character_only.2.2.1 _ (by decide),
   naming_checks_first_character_only.2.2.2 _ (by decide)⟩

/-- C8: the line-level pass is a total function of the source text — for every
input string it terminates with a well-formed issue list whose line numbers
all name real lines of the text, and each detector tags its issues with
exactly the line number it was handed. -/
theorem line_pass_total_and_wellformed :
    (∀ text : String,
        (get_issues_by_line text).all
          (fun iss => decide (1 ≤ iss.line_nbr) &&
            decide (iss.line_nbr ≤ (splitNl text.data).length)) = true) ∧
    (∀ (line : List Char) (line_nbr blanks : Nat),
        (lineIssues line line_nbr blanks).all (fun iss => iss.line_nbr == line_nbr) = true) := by
  constructor
  · intro text
    rw [List.all_eq_true]
    intro iss hm
    have := mem_scanLines_bounds (splitNl text.data) 1 0 iss hm
    simp only [Bool.and_eq_true, decide_eq_true_eq]
    omega
  · intro line line_nbr blanks
    rw [List.all_eq_true]
    intro iss hm
    simpa [beq_iff_eq] using mem_lineIssues_line_nbr hm

/-- C9: async function definitions are dispatched to no node-level detector:
an `AsyncFunctionDef` node contributes no issue of its own, the node pass
equals the pass restricted to the dispatched (class / plain function) nodes,
and a module whose only top-level node is an async function with a bad name,
bad parameter, mutable default and bad body variable yields no issue at all. -/
theorem async_function_defs_not_inspected :
    (∀ (n : String) (l : Nat) (a : Arguments) (b : List Stmt),
        nodeIssues (Stmt.asyncFunctionDef n l a b) = []) ∧
    (∀ m : List Stmt,
        get_issues_by_node_ok m = ((walkStmts m).filter dispatched).flatMap nodeIssues) ∧
    get_issues_by_node_ok
        [Stmt.asyncFunctionDef ("BadName") 1
          (Arguments.mk [] [Arg.mk ("X") 1] [] [PyExpr.listLit 1] [])
          [Stmt.assign [Target.name ("BadVar")] 2]] = [] := by
  refine ⟨fun _ _ _ _ => rfl, ?_, rfl⟩
  intro m
  unfold get_issues_by_node_ok
  exact flatMap_filter_eq dispatched nodeIssues
    (by intro s hs; cases s <;> first | rfl | simp [dispatched] at hs) (walkStmts m)

/-- C10: MutableDefaultArgument (S012) reads only `args.defaults` (the
positional defaults): the result is invariant under any change to
`kw_defaults`, a function whose defaults are all non-mutable yields nothing,
and a keyword-only parameter with a literal list default yields no S012. -/
theorem mutable_default_positional_only :
    (∀ (po a ko : List Arg) (d : List PyExpr) (kd kd' : List (Option PyExpr)),
        get_issue_012 (Arguments.mk po a ko d kd) =
          get_issue_012 (Arguments.mk po a ko d kd')) ∧
    (∀ args : Arguments, args.defaults.all (fun e => !isMutableLit e) = true →
        get_issue_012 args = []) ∧
    get_issue_012 (Arguments.mk [] [] [Arg.mk ("x") 1] [] [some (PyExpr.listLit 1)]) = [] := by
  refine ⟨fun _ _ _ _ _ _ => rfl, ?_, rfl⟩
  intro args h
  unfold get_issue_012
  refine List.flatMap_eq_nil_iff.mpr ?_
  intro d hd
  have hmut := List.all_eq_true.mp h d hd
  rw [Bool.not_eq_true'] at hmut
  simp [hmut]

/-- C10 witness: a non-mutable positional default yields no S012. -/
theorem mutable_default_positional_witness :
    get_issue_012 (Arguments.mk [] [Arg.mk ("y") 2] [] [PyExpr.otherExpr 2] []) = [] :=
  mutable_default_positional_only.2.1 _ (by decide)
